import Mathlib

/-!
Shallow embedding of the ray-tracing core of `src/lib.rs`
(nathanleiby/raytracing-one-weekend).

Modelling conventions:
* `f64` is modelled as `ℝ`.  The constant `f64::INFINITY`, used as the upper
  parameter bound `t_max`, is modelled by taking `t_max : EReal` so that `⊤`
  plays the role of `INF`; all other scalars stay in `ℝ`.
* The thread-local RNG (`rand::thread_rng`, `gen::<f64>()` draws uniform in
  `[0,1)`) is modelled as an oracle stream `g : ℕ → ℝ` together with a cursor
  `i : ℕ`; each `gen` call reads `g i` and advances the cursor.  The property
  `0 ≤ g n < 1` of the library generator is carried as a hypothesis where a
  theorem needs it.
* Rejection-sampling loops (which need not terminate on an adversarial
  stream) take a fuel parameter and return `none` when the fuel runs out.
* A Rust panic (`Option::unwrap` on `None`) is modelled by an outer `Option`
  layer: `none` means the call panics, `some r` means it returns `r`.
* Trait objects (`Rc<dyn Material>`, `Box<dyn Hittable>`) are modelled as
  plain functions of the one trait method's type.
* `i32` (the bounce depth) is modelled as `ℤ`; the code only ever decrements
  it when it is positive, so no wrap-around can occur.
-/

noncomputable section

/-- `Vec3 { x, y, z }`: three `f64` components, also used as `Point3` and
`Color` (`src/lib.rs` lines 30-35, 205-206). -/
structure Vec3 where
  x : ℝ
  y : ℝ
  z : ℝ
deriving DecidableEq

/-- `Point3` is an alias for `Vec3` (`src/lib.rs` line 205). -/
def Point3 := Vec3

/-- `Color` is an alias for `Vec3` (`src/lib.rs` line 206). -/
def Color := Vec3

/-- `Vec3::new` (`src/lib.rs` lines 38-40). -/
def Vec3.new (x y z : ℝ) : Vec3 := ⟨x, y, z⟩

/-- `COLOR_BLACK` (`src/lib.rs` lines 13-17). -/
def COLOR_BLACK : Vec3 := ⟨0, 0, 0⟩

/-- `COLOR_WHITE` (`src/lib.rs` lines 19-23). -/
def COLOR_WHITE : Vec3 := ⟨1, 1, 1⟩

/-- `impl Add for Vec3` (`src/lib.rs` lines 128-137). -/
instance : Add Vec3 := ⟨fun u v => ⟨u.x + v.x, u.y + v.y, u.z + v.z⟩⟩

/-- `impl Sub for Vec3` (`src/lib.rs` lines 139-148). -/
instance : Sub Vec3 := ⟨fun u v => ⟨u.x - v.x, u.y - v.y, u.z - v.z⟩⟩

/-- `impl Mul<f64> for Vec3` (`src/lib.rs` lines 151-161). -/
instance : HMul Vec3 ℝ Vec3 := ⟨fun v f => ⟨v.x * f, v.y * f, v.z * f⟩⟩

/-- `impl Mul<Vec3> for f64` reuses the other direction (`src/lib.rs` lines 164-170). -/
instance : HMul ℝ Vec3 Vec3 := ⟨fun f v => v * f⟩

/-- `impl Mul<Vec3> for Vec3`, component-wise (`src/lib.rs` lines 173-183). -/
instance : Mul Vec3 := ⟨fun u v => ⟨u.x * v.x, u.y * v.y, u.z * v.z⟩⟩

/-- `impl Div<f64> for Vec3` (`src/lib.rs` lines 185-191). -/
instance : HDiv Vec3 ℝ Vec3 := ⟨fun v f => v * (1 / f)⟩

/-- `impl Neg for Vec3` (`src/lib.rs` lines 193-203). -/
instance : Neg Vec3 := ⟨fun v => ⟨v.x * (-1), v.y * (-1), v.z * (-1)⟩⟩

/-- `dot` (`src/lib.rs` lines 109-111). -/
def dot (u v : Vec3) : ℝ := u.x * v.x + u.y * v.y + u.z * v.z

/-- `Vec3::length_squared` (`src/lib.rs` lines 87-89). -/
def Vec3.length_squared (v : Vec3) : ℝ := v.x * v.x + v.y * v.y + v.z * v.z

/-- `Vec3::length` (`src/lib.rs` lines 83-85). -/
def Vec3.length (v : Vec3) : ℝ := Real.sqrt v.length_squared

/-- `Vec3::unit_vector` (`src/lib.rs` lines 91-93). -/
def Vec3.unit_vector (v : Vec3) : Vec3 := v / v.length

/-- `reflect` (`src/lib.rs` lines 113-115). -/
def reflect (v n : Vec3) : Vec3 := v - (n * (2 : ℝ) * dot v n)

/-- `refract` (`src/lib.rs` lines 117-125). -/
def refract (R n : Vec3) (etai_over_etat : ℝ) : Vec3 :=
  let cos_theta := min (dot (-R) n) 1
  let r_out_perp := etai_over_etat * (R + cos_theta * n)
  let r_out_par := -Real.sqrt |1 - r_out_perp.length_squared| * n
  r_out_perp + r_out_par

/-- `Ray { orig, dir }` (`src/lib.rs` lines 208-212). -/
structure Ray where
  orig : Vec3
  dir : Vec3

/-- `Ray::at` (`src/lib.rs` lines 219-221). -/
def Ray.at (r : Ray) (t : ℝ) : Vec3 := r.orig + r.dir * t

/-- The data fields of `HitRecord` that a material's `scatter` reads
(`p`, `normal`, `t`, `front_face`; `src/lib.rs` lines 246-252 minus the
material pointer, split off to break the type-level cycle between
`HitRecord` and `Material`). -/
structure HitRecordCore where
  p : Vec3
  normal : Vec3
  t : ℝ
  front_face : Bool

/-- `ScatterResult` (`src/lib.rs` lines 273-276). -/
structure ScatterResult where
  scattered : Ray
  attenuation : Vec3

/-- `Rc<dyn Material>` modelled as the trait's one method
`scatter(&self, r: &Ray, rec: &HitRecord) -> Option<ScatterResult>`
(`src/lib.rs` lines 278-280); a concrete material with a fixed RNG draw
is such a function. -/
def MaterialFn : Type := Ray → HitRecordCore → Option ScatterResult

/-- `HitRecord` (`src/lib.rs` lines 246-252): the core fields plus the
shared material reference. -/
structure HitRecord extends HitRecordCore where
  mat_ptr : MaterialFn

/-- `HitRecord::with_face_normal` (`src/lib.rs` lines 254-270), embedded
exactly as written: `front_face` is recomputed from the ray, but the
`normal` chosen by the `if` is `outward_normal` in both branches (and the
`if` tests the stale `self.front_face` field). -/
def HitRecord.with_face_normal (self : HitRecord) (r : Ray) (outward_normal : Vec3) :
    HitRecord :=
  let front_face := decide (dot r.dir outward_normal < 0)
  let normal := if self.front_face then outward_normal else outward_normal
  { p := self.p, normal := normal, t := self.t, front_face := front_face,
    mat_ptr := self.mat_ptr }

/-- `Sphere` (`src/lib.rs` lines 382-386). -/
structure Sphere where
  center : Vec3
  radius : ℝ
  mat_ptr : MaterialFn

/-- `impl Hittable for Sphere`, `Sphere::hit` (`src/lib.rs` lines 388-423).
The Rust `mut root` with early returns becomes the nested `if`; `t_max` is
`EReal` so that `⊤` models `f64::INFINITY`. -/
def Sphere.hit (s : Sphere) (ray : Ray) (t_min : ℝ) (t_max : EReal) : Option HitRecord :=
  let oc := ray.orig - s.center
  let a := dot ray.dir ray.dir
  let half_b := dot oc ray.dir
  let c := dot oc oc - s.radius * s.radius
  let discriminant := half_b * half_b - a * c
  if discriminant < 0 then none
  else
    let sqrtd := Real.sqrt discriminant
    let root1 := (-half_b - sqrtd) / a
    let root2 := (-half_b + sqrtd) / a
    let mkRec : ℝ → Option HitRecord := fun root =>
      let t := root
      let p := ray.at t
      let hr : HitRecord :=
        { t := t, p := p, normal := (p - s.center) / s.radius, front_face := false,
          mat_ptr := s.mat_ptr }
      let outward_normal := (p - s.center) / s.radius
      some (hr.with_face_normal ray outward_normal)
    if root1 < t_min ∨ t_max < (root1 : ℝ) then
      if root2 < t_min ∨ t_max < (root2 : ℝ) then none
      else mkRec root2
    else mkRec root1

/-- `Box<dyn Hittable>` modelled as the trait's one method
`hit(&self, r: &Ray, t_min: f64, t_max: f64) -> Option<HitRecord>`
(`src/lib.rs` lines 378-380). -/
def HitFn : Type := Ray → ℝ → EReal → Option HitRecord

/-- `HitList { objects }` (`src/lib.rs` lines 426-428). -/
structure HitList where
  objects : List HitFn

/-- One step of `Iterator::min_by` with the comparator of `HitList::hit`
(`src/lib.rs` lines 448-453).  Rust's `min_by` reduces with
`cmp::min_by(acc, b, compare) = if compare(&b, &acc) == Less then b else acc`,
so the comparator closure is applied as `closure(b, acc)`:
`(None,None) ↦ Greater` keeps `acc`, `(Some,None) ↦ Less` takes `b`,
`(None,Some) ↦ Greater` keeps `acc`, and two `Some`s compare by
`total_cmp` on `t` (on real numbers: the usual order). -/
def hitMinStep (acc b : Option HitRecord) : Option HitRecord :=
  match b, acc with
  | none, none => acc
  | some _, none => b
  | none, some _ => acc
  | some rb, some racc => if rb.t < racc.t then b else acc

/-- `impl Hittable for HitList`, `HitList::hit` (`src/lib.rs` lines 444-456):
map `hit` over the members, take `min_by` with the comparator above, then
`unwrap()`.  `min_by` on an empty iterator yields Rust `None`, so the
`unwrap` panics there; the outer `Option` models that panic (`none` =
panic, `some r` = normal return of `r`). -/
def HitList.hit (hl : HitList) (ray : Ray) (t_min : ℝ) (t_max : EReal) :
    Option (Option HitRecord) :=
  let hits := hl.objects.map (fun obj => obj ray t_min t_max)
  let closest : Option (Option HitRecord) :=
    match hits with
    | [] => none
    | h :: rest => some (rest.foldl hitMinStep h)
  closest

/-- `Vec3::new_random` (`src/lib.rs` lines 42-50): three `gen::<f64>()`
draws from the oracle stream, returning the vector and the advanced
cursor. -/
def Vec3.new_random (g : ℕ → ℝ) (i : ℕ) : Vec3 × ℕ :=
  (⟨g i, g (i + 1), g (i + 2)⟩, i + 3)

/-- `Vec3::new_random_in_unit_sphere` (`src/lib.rs` lines 62-69): rejection
loop; `fuel` bounds the number of iterations, `none` models
non-termination within the fuel. -/
def Vec3.new_random_in_unit_sphere (g : ℕ → ℝ) : ℕ → ℕ → Option (Vec3 × ℕ)
  | _, 0 => none
  | i, fuel + 1 =>
    let vi := Vec3.new_random g i
    if dot vi.1 vi.1 < 1 then some vi
    else Vec3.new_random_in_unit_sphere g vi.2 fuel

/-- `Metal { albedo, fuzz }` and `impl Material for Metal`
(`src/lib.rs` lines 308-336): reflect the unit incoming direction about the
normal, perturb by `fuzz · random_in_unit_sphere`, and return a result only
if the perturbed direction still points with the normal.  The outer
`Option` is `none` when the rejection sampler exhausts its fuel. -/
def Metal.scatter (albedo : Vec3) (fuzz : ℝ) (r : Ray) (rec : HitRecordCore)
    (g : ℕ → ℝ) (i fuel : ℕ) : Option (Option ScatterResult × ℕ) :=
  let reflected := reflect r.dir.unit_vector rec.normal
  match Vec3.new_random_in_unit_sphere g i fuel with
  | none => none
  | some (v, i') =>
    let scattered : Ray := ⟨rec.p, reflected + v * fuzz⟩
    if dot scattered.dir rec.normal > 0 then
      some (some ⟨scattered, albedo⟩, i')
    else
      some (none, i')

/-- `Dialectric { index_of_refraction }` and `impl Material for Dialectric`
(`src/lib.rs` lines 338-376); deterministic, so it is directly a
`MaterialFn`. -/
def Dialectric.scatter (index_of_refraction : ℝ) : MaterialFn := fun r rec =>
  let refractionRatio := if rec.front_face then 1 / index_of_refraction
    else index_of_refraction
  let unit_direction := r.dir.unit_vector
  let cos_theta := min (dot (-unit_direction) rec.normal) 1
  let sin_theta := Real.sqrt (1 - cos_theta * cos_theta)
  let cannot_refract := refractionRatio * sin_theta > 1
  let direction := if cannot_refract then reflect unit_direction rec.normal
    else refract unit_direction rec.normal refractionRatio
  let scattered : Ray := ⟨rec.p, direction⟩
  some ⟨scattered, COLOR_WHITE⟩

/-- `Ray::color` (`src/lib.rs` lines 223-243).  The world (`impl Hittable`)
is an abstract `HitFn`; the material's scatter (one RNG draw already
fixed) is the record's `MaterialFn`.  The recursion decrements `depth`
only in the branch where `depth > 0`. -/
def Ray.color (world : HitFn) (depth : ℤ) (r : Ray) : Vec3 :=
  if _h : depth ≤ 0 then COLOR_BLACK
  else
    let unit_direction := r.dir.unit_vector
    match world r 0.001 ⊤ with
    | some rec =>
      match rec.mat_ptr r rec.toHitRecordCore with
      | some out => out.attenuation * Ray.color world (depth - 1) out.scattered
      | none => COLOR_BLACK
    | none =>
      let t := 0.5 * (unit_direction.y + 1)
      COLOR_WHITE * (1 - t) + Vec3.new 0.5 0.7 1 * t
termination_by depth.toNat
decreasing_by omega

/-- Fuel-instrumented variant of `Ray.color`: `fuel` bounds the number of
nested recursive calls; `none` means the recursion would need more than
`fuel` nested calls.  Used to state the termination/call-count claim. -/
def Ray.colorFuel (world : HitFn) (fuel : ℕ) (depth : ℤ) (r : Ray) : Option Vec3 :=
  if depth ≤ 0 then some COLOR_BLACK
  else
    let unit_direction := r.dir.unit_vector
    match world r 0.001 ⊤ with
    | some rec =>
      match rec.mat_ptr r rec.toHitRecordCore with
      | some out =>
        match fuel with
        | 0 => none
        | fuel' + 1 =>
          (Ray.colorFuel world fuel' (depth - 1) out.scattered).map
            (fun c => out.attenuation * c)
      | none => some COLOR_BLACK
    | none =>
      let t := 0.5 * (unit_direction.y + 1)
      some (COLOR_WHITE * (1 - t) + Vec3.new 0.5 0.7 1 * t)

/-- A material that absorbs everything (`fun _ _ => none`); used as the
material slot of concrete example objects where scattering is irrelevant. -/
def matNone : MaterialFn := fun _ _ => none

/-- The unit sphere at the origin used by the spec's concrete tests. -/
def exSphere : Sphere := ⟨⟨0, 0, 0⟩, 1, matNone⟩

/-- The spec's test ray from `(0,0,-5)` toward `(0,0,1)`. -/
def exRayOutside : Ray := ⟨⟨0, 0, -5⟩, ⟨0, 0, 1⟩⟩

/-- The spec's test ray from the origin (inside the unit sphere) toward
`(0,0,1)`. -/
def exRayInside : Ray := ⟨⟨0, 0, 0⟩, ⟨0, 0, 1⟩⟩

/-- A ray pointing straight up, direction `(0,1,0)`. -/
def rayUp : Ray := ⟨⟨0, 0, 0⟩, ⟨0, 1, 0⟩⟩

/-- A world in which no ray hits anything. -/
def worldMiss : HitFn := fun _ _ _ => none

/-- An RNG oracle stream that always yields `1/2` (a valid `gen::<f64>()`
stream: every draw lies in `[0,1)`). -/
def halfStream : ℕ → ℝ := fun _ => 1 / 2

/-- A fixed scatter result used to build a concrete scattering world. -/
def exScatter : ScatterResult := ⟨⟨⟨0, 0, 0⟩, ⟨0, 1, 0⟩⟩, ⟨0.5, 0.5, 0.5⟩⟩

/-- A material that always scatters to `exScatter`. -/
def matConst : MaterialFn := fun _ _ => some exScatter

/-- A concrete hit record carrying `matConst`. -/
def exHitRecord : HitRecord := ⟨⟨⟨0, 0, 1⟩, ⟨0, 0, -1⟩, 1, true⟩, matConst⟩

/-- A world in which every ray hits `exHitRecord`. -/
def worldHit : HitFn := fun _ _ _ => some exHitRecord

/-- The sphere-intersection routine as the specification describes it
(spec §4.2 / claim C2, word for word): no hit when the discriminant is
negative; otherwise the smaller root `(-half_b - sqrt d)/a` if it lies in
`[t_min, t_max]`, else the larger root if it lies in `[t_min, t_max]`,
else no hit; on success the record has `t` the chosen root,
`point = ray.at(t)`, normal the outward normal `(point - center)/radius`,
and `front_face = (dot(ray.direction, outward_normal) < 0)`.  To be
compared with `Sphere.hit`, the embedding of the source. -/
def sphereHitSpec (s : Sphere) (ray : Ray) (t_min : ℝ) (t_max : EReal) : Option HitRecord :=
  let oc := ray.orig - s.center
  let a := dot ray.dir ray.dir
  let half_b := dot oc ray.dir
  let c := dot oc oc - s.radius * s.radius
  let d := half_b * half_b - a * c
  let record : ℝ → HitRecord := fun t =>
    let point := ray.at t
    let outward := (point - s.center) / s.radius
    { p := point, normal := outward, t := t,
      front_face := decide (dot ray.dir outward < 0), mat_ptr := s.mat_ptr }
  if d < 0 then none
  else if t_min ≤ (-half_b - Real.sqrt d) / a ∧ (((-half_b - Real.sqrt d) / a : ℝ) : EReal) ≤ t_max then
    some (record ((-half_b - Real.sqrt d) / a))
  else if t_min ≤ (-half_b + Real.sqrt d) / a ∧ (((-half_b + Real.sqrt d) / a : ℝ) : EReal) ≤ t_max then
    some (record ((-half_b + Real.sqrt d) / a))
  else none

/-! ## Theorems -/

@[simp] theorem Vec3.add_def (u v : Vec3) : u + v = ⟨u.x + v.x, u.y + v.y, u.z + v.z⟩ := rfl

@[simp] theorem Vec3.sub_def (u v : Vec3) : u - v = ⟨u.x - v.x, u.y - v.y, u.z - v.z⟩ := rfl

@[simp] theorem Vec3.mul_scalar_def (v : Vec3) (f : ℝ) :
    v * f = ⟨v.x * f, v.y * f, v.z * f⟩ := rfl

@[simp] theorem Vec3.scalar_mul_def (f : ℝ) (v : Vec3) :
    f * v = ⟨v.x * f, v.y * f, v.z * f⟩ := rfl

@[simp] theorem Vec3.mul_vec_def (u v : Vec3) :
    u * v = ⟨u.x * v.x, u.y * v.y, u.z * v.z⟩ := rfl

@[simp] theorem Vec3.div_scalar_def (v : Vec3) (f : ℝ) :
    v / f = ⟨v.x * (1 / f), v.y * (1 / f), v.z * (1 / f)⟩ := rfl

@[simp] theorem Vec3.neg_def (v : Vec3) :
    -v = ⟨v.x * (-1), v.y * (-1), v.z * (-1)⟩ := rfl


/-- Evaluation helper: the spec's first concrete test.  Unit sphere at the
origin, ray from `(0,0,-5)` toward `(0,0,1)`, range `(0.001, ∞)`:
`hit` returns `t = 4`, point `(0,0,-1)`, normal `(0,0,-1)`,
`front_face = true`. -/
theorem sphere_hit_front_example :
    Sphere.hit exSphere exRayOutside 0.001 ⊤ =
      some ⟨⟨⟨0, 0, -1⟩, ⟨0, 0, -1⟩, 4, true⟩, matNone⟩ := by
  unfold Sphere.hit HitRecord.with_face_normal exSphere exRayOutside Ray.at
  norm_num [dot, Real.sqrt_one, not_top_lt]

/-- Evaluation helper: the spec's second concrete test.  Unit sphere at the
origin, ray from the origin (inside) toward `(0,0,1)`, range `(0.001, ∞)`:
the nearer root `-1` is rejected, the farther root `1` is returned, with
`front_face = false` and the normal still the outward `(0,0,1)`. -/
theorem sphere_hit_inside_example :
    Sphere.hit exSphere exRayInside 0.001 ⊤ =
      some ⟨⟨⟨0, 0, 1⟩, ⟨0, 0, 1⟩, 1, false⟩, matNone⟩ := by
  unfold Sphere.hit HitRecord.with_face_normal exSphere exRayInside Ray.at
  norm_num [dot, Real.sqrt_one, not_top_lt]

/-- Claim C6: for every ray, every scene, and every depth ≤ 0,
`Ray::color` returns black `(0,0,0)` independent of scene content (the
world is universally quantified, so no hit or scatter query can influence
the result). -/
theorem color_depth_le_zero_black (world : HitFn) (depth : ℤ) (r : Ray)
    (h : depth ≤ 0) : Ray.color world depth r = COLOR_BLACK := by
  rw [Ray.color]
  simp [h]

/-- Witness for C6 at `depth = 0` with a concrete scene and ray. -/
theorem color_depth_le_zero_black_witness :
    (0 : ℤ) ≤ 0 ∧ Ray.color worldMiss 0 exRayInside = COLOR_BLACK :=
  ⟨le_refl 0, color_depth_le_zero_black worldMiss 0 exRayInside (le_refl 0)⟩

/-- Claim C8: for every ray with non-zero direction that hits nothing in
`(0.001, ∞)` and every depth > 0, `Ray::color` returns exactly
`white·(1−t) + (0.5,0.7,1.0)·t` with `t = 0.5·(unit_direction.y + 1)`,
where `unit_direction` is the normalized ray direction. -/
theorem color_miss_background_gradient (world : HitFn) (depth : ℤ) (r : Ray)
    (_hdir : r.dir ≠ ⟨0, 0, 0⟩) (hmiss : world r 0.001 ⊤ = none) (hdepth : 0 < depth) :
    Ray.color world depth r =
      COLOR_WHITE * (1 - 0.5 * (r.dir.unit_vector.y + 1)) +
        Vec3.new 0.5 0.7 1 * (0.5 * (r.dir.unit_vector.y + 1)) := by
  rw [Ray.color, dif_neg (by omega)]
  simp only [hmiss]

/-- Witness for C8: the straight-up direction `(0,1,0)` misses, `t = 1`,
and the result is pure sky-blue `(0.5, 0.7, 1.0)`. -/
theorem color_miss_background_gradient_witness :
    rayUp.dir ≠ (⟨0, 0, 0⟩ : Vec3) ∧ worldMiss rayUp 0.001 ⊤ = none ∧ (0 : ℤ) < 1 ∧
      Ray.color worldMiss 1 rayUp = Vec3.new 0.5 0.7 1 := by
  have hdir : rayUp.dir ≠ (⟨0, 0, 0⟩ : Vec3) := by
    simp only [rayUp, ne_eq, Vec3.mk.injEq]
    norm_num
  refine ⟨hdir, rfl, by norm_num, ?_⟩
  refine (color_miss_background_gradient worldMiss 1 rayUp hdir rfl (by norm_num)).trans ?_
  norm_num [rayUp, Vec3.unit_vector, Vec3.length, Vec3.length_squared, Vec3.new,
    COLOR_WHITE, Real.sqrt_one]

/-- Claim C9: `Dialectric::scatter` always returns a result whose
attenuation is white `(1,1,1)`; with
`refraction_ratio = 1/index_of_refraction` on front-face hits and
`index_of_refraction` otherwise, the scattered ray starts at the hit point
and its direction is `reflect(unit_direction, normal)` when
`refraction_ratio · sin_theta > 1` (total internal reflection, with
`sin_theta = sqrt(1 - cos_theta²)`, `cos_theta = min(dot(-u, n), 1)`) and
`refract(unit_direction, normal, refraction_ratio)` otherwise. -/
theorem dialectric_scatter_always_some (ior : ℝ) (r : Ray) (rec : HitRecordCore) :
    Dialectric.scatter ior r rec =
      some ⟨⟨rec.p,
        if (if rec.front_face then 1 / ior else ior) *
            Real.sqrt (1 - min (dot (-r.dir.unit_vector) rec.normal) 1 *
              min (dot (-r.dir.unit_vector) rec.normal) 1) > 1 then
          reflect r.dir.unit_vector rec.normal
        else
          refract r.dir.unit_vector rec.normal (if rec.front_face then 1 / ior else ior)⟩,
        COLOR_WHITE⟩ := rfl

/-- Claim C5 (supporting theorem for the code bug): on every RNG stream
valid for `gen::<f64>()` (all draws in `[0,1)`), whenever the rejection
loop of `Vec3::new_random_in_unit_sphere` terminates it returns a vector
with squared length < 1 — but also with all three components ≥ 0: the
sampler draws from `new_random` (uniform in `[0,1)³`), so it can never
produce a vector with a negative component and does not range over the
whole unit ball. -/
theorem random_in_unit_sphere_inside_and_nonneg (g : ℕ → ℝ)
    (hg : ∀ n, 0 ≤ g n ∧ g n < 1) :
    ∀ fuel i (v : Vec3) (i' : ℕ),
      Vec3.new_random_in_unit_sphere g i fuel = some (v, i') →
      dot v v < 1 ∧ 0 ≤ v.x ∧ 0 ≤ v.y ∧ 0 ≤ v.z := by
  intro fuel
  induction fuel with
  | zero =>
    intro i v i' h
    simp [Vec3.new_random_in_unit_sphere] at h
  | succ k ih =>
    intro i v i' h
    rw [Vec3.new_random_in_unit_sphere] at h
    split_ifs at h with hlt
    · rw [Option.some.injEq, Prod.ext_iff] at h
      obtain ⟨hv, -⟩ := h
      simp only [Vec3.new_random] at hv hlt
      subst hv
      exact ⟨hlt, (hg i).1, (hg (i + 1)).1, (hg (i + 2)).1⟩
    · exact ih _ v i' h

/-- Witness for C5's theorem: the constant stream `1/2` is a valid
`gen::<f64>()` stream; the sampler accepts `(1/2, 1/2, 1/2)` on the first
draw and the conclusions hold there. -/
theorem random_in_unit_sphere_inside_and_nonneg_witness :
    (∀ n, 0 ≤ halfStream n ∧ halfStream n < 1) ∧
    Vec3.new_random_in_unit_sphere halfStream 0 1 = some (⟨1 / 2, 1 / 2, 1 / 2⟩, 3) ∧
    (dot ⟨1 / 2, 1 / 2, 1 / 2⟩ ⟨1 / 2, 1 / 2, 1 / 2⟩ < 1 ∧
      0 ≤ (⟨1 / 2, 1 / 2, 1 / 2⟩ : Vec3).x ∧ 0 ≤ (⟨1 / 2, 1 / 2, 1 / 2⟩ : Vec3).y ∧
      0 ≤ (⟨1 / 2, 1 / 2, 1 / 2⟩ : Vec3).z) := by
  have hg : ∀ n, 0 ≤ halfStream n ∧ halfStream n < 1 := by
    intro n; constructor <;> norm_num [halfStream]
  have heval : Vec3.new_random_in_unit_sphere halfStream 0 1 =
      some (⟨1 / 2, 1 / 2, 1 / 2⟩, 3) := by
    rw [show (1 : ℕ) = 0 + 1 from rfl, Vec3.new_random_in_unit_sphere]
    norm_num [Vec3.new_random, dot, halfStream]
  exact ⟨hg, heval,
    random_in_unit_sphere_inside_and_nonneg halfStream hg 1 0 _ _ heval⟩

/-- Claim C10: `reflect(v,n) = v - 2·dot(v,n)·n`, and for a `Metal`
material with `fuzz = 0`, whenever the unit-sphere sampler call returns,
`scatter` returns a result iff
`dot(reflect(unit_vector(ray.dir), normal), normal) > 0`, and then the
scattered ray is exactly `(hit point, reflect(unit_vector(ray.dir),
normal))` with attenuation `albedo` — the RNG draw does not contribute. -/
theorem metal_scatter_fuzz_zero_exact_reflection :
    (∀ v n : Vec3, reflect v n = v - ((2 : ℝ) * dot v n) * n) ∧
    ∀ (albedo : Vec3) (r : Ray) (rec : HitRecordCore) (g : ℕ → ℝ) (i fuel : ℕ)
      (v : Vec3) (i' : ℕ),
      Vec3.new_random_in_unit_sphere g i fuel = some (v, i') →
      Metal.scatter albedo 0 r rec g i fuel =
        some (if 0 < dot (reflect r.dir.unit_vector rec.normal) rec.normal then
            some ⟨⟨rec.p, reflect r.dir.unit_vector rec.normal⟩, albedo⟩
          else none, i') := by
  constructor
  · intro v n
    simp only [reflect, Vec3.scalar_mul_def, Vec3.mul_scalar_def, Vec3.sub_def,
      Vec3.mk.injEq]
    refine ⟨by ring, by ring, by ring⟩
  · intro albedo r rec g i fuel v i' hs
    unfold Metal.scatter
    rw [hs]
    have hz : reflect r.dir.unit_vector rec.normal + v * (0 : ℝ) =
        reflect r.dir.unit_vector rec.normal := by
      simp
    dsimp only
    rw [hz]
    split_ifs <;> rfl

/-- Witness for C10: unit incoming direction `(0,0,1)` against normal
`(0,0,-1)` reflects to `(0,0,-1)`; the sampler terminates on the constant
`1/2` stream, and the scattered ray is the exact reflection. -/
theorem metal_scatter_fuzz_zero_exact_reflection_witness :
    Vec3.new_random_in_unit_sphere halfStream 0 1 = some (⟨1 / 2, 1 / 2, 1 / 2⟩, 3) ∧
    Metal.scatter ⟨0.8, 0.8, 0.8⟩ 0 exRayInside ⟨⟨0, 0, -1⟩, ⟨0, 0, -1⟩, 4, true⟩
        halfStream 0 1 =
      some (some ⟨⟨⟨0, 0, -1⟩, ⟨0, 0, -1⟩⟩, ⟨0.8, 0.8, 0.8⟩⟩, 3) := by
  have heval : Vec3.new_random_in_unit_sphere halfStream 0 1 =
      some (⟨1 / 2, 1 / 2, 1 / 2⟩, 3) := by
    rw [show (1 : ℕ) = 0 + 1 from rfl, Vec3.new_random_in_unit_sphere]
    norm_num [Vec3.new_random, dot, halfStream]
  refine ⟨heval, ?_⟩
  refine (metal_scatter_fuzz_zero_exact_reflection.2 ⟨0.8, 0.8, 0.8⟩ exRayInside
    ⟨⟨0, 0, -1⟩, ⟨0, 0, -1⟩, 4, true⟩ halfStream 0 1 ⟨1 / 2, 1 / 2, 1 / 2⟩ 3 heval).trans ?_
  norm_num [exRayInside, Vec3.unit_vector, Vec3.length, Vec3.length_squared, reflect,
    dot, Real.sqrt_one]

/-- A root lies in `[t_min, t_max]` exactly when the code's rejection test
`root < t_min || t_max < root` fails. -/
theorem inRange_iff (t_min x : ℝ) (t_max : EReal) :
    (t_min ≤ x ∧ (x : EReal) ≤ t_max) ↔ ¬(x < t_min ∨ t_max < (x : EReal)) := by
  rw [not_or, not_lt, not_lt]

/-- Claim C2: `Sphere::hit` behaves exactly as the specification describes
(`sphereHitSpec`): no hit on negative discriminant, otherwise the smaller
root if in `[t_min, t_max]`, else the larger root if in range, else no
hit, with the record fields as described; and on the unit sphere at the
origin with the ray from `(0,0,-5)` toward `(0,0,1)` over `(0.001, ∞)` it
returns `t = 4`, point `(0,0,-1)`, normal `(0,0,-1)`, `front_face =
true`. -/
theorem sphere_hit_matches_claim :
    (∀ (s : Sphere) (ray : Ray) (t_min : ℝ) (t_max : EReal),
      Sphere.hit s ray t_min t_max = sphereHitSpec s ray t_min t_max) ∧
    Sphere.hit exSphere exRayOutside 0.001 ⊤ =
      some ⟨⟨⟨0, 0, -1⟩, ⟨0, 0, -1⟩, 4, true⟩, matNone⟩ := by
  refine ⟨?_, sphere_hit_front_example⟩
  intro s ray t_min t_max
  simp only [Sphere.hit, sphereHitSpec, HitRecord.with_face_normal, inRange_iff, ite_self]
  split_ifs <;> rfl

/-- Claim C1, counterexample: for the unit sphere at the origin and the ray
from the origin toward `(0,0,1)` (a back-face hit), `Sphere::hit` succeeds
with normal `(0,0,1)`, and `dot(ray.direction, normal) = 1` is not `< 0`:
the record's normal is not oriented opposite the incoming ray on back-face
hits (`with_face_normal` never flips the outward normal). -/
theorem sphere_backface_normal_counterexample :
    Sphere.hit exSphere exRayInside 0.001 ⊤ =
      some ⟨⟨⟨0, 0, 1⟩, ⟨0, 0, 1⟩, 1, false⟩, matNone⟩ ∧
    ¬(dot exRayInside.dir (⟨0, 0, 1⟩ : Vec3) < 0) := by
  refine ⟨sphere_hit_inside_example, ?_⟩
  norm_num [exRayInside, dot]

/-- If `s·s` is the discriminant and `t` is either quadratic root, then
`a·t² + 2·half_b·t + c = 0`. -/
theorem root_quadratic (a half_b c s t : ℝ) (ha : a ≠ 0)
    (hs : s * s = half_b * half_b - a * c)
    (ht : t = (-half_b - s) / a ∨ t = (-half_b + s) / a) :
    a * (t * t) + 2 * half_b * t + c = 0 := by
  rcases ht with rfl | rfl <;> (field_simp; linear_combination a ^ 2 * hs)

/-- A point satisfying the sphere's quadratic lies on the sphere, so the
outward normal `(point - center)/radius` has length 1 (for non-zero
radius). -/
theorem normal_length_one (orig dirv center : Vec3) (radius t : ℝ) (hrad : radius ≠ 0)
    (ht : dot dirv dirv * (t * t) + 2 * dot (orig - center) dirv * t +
      (dot (orig - center) (orig - center) - radius * radius) = 0) :
    Vec3.length ((orig + dirv * t - center) / radius) = 1 := by
  have hls : Vec3.length_squared ((orig + dirv * t - center) / radius) = 1 := by
    simp only [Vec3.length_squared, Vec3.div_scalar_def, Vec3.sub_def, Vec3.add_def,
      Vec3.mul_scalar_def]
    simp only [dot, Vec3.sub_def] at ht
    field_simp
    linear_combination ht
  rw [Vec3.length, hls, Real.sqrt_one]

/-- Claim C1 (amended): for every sphere with non-zero radius and every ray
with non-zero direction, a successful `Sphere::hit` returns a record whose
normal is unit length and equal to the outward normal
`(point - center)/radius`; the normal opposes the incoming ray exactly
when `front_face` is set (`front_face = (dot(ray.dir, normal) < 0)`), and
on back-face hits it points along the ray instead (the `front_face` flag
alone encodes sidedness). -/
theorem sphere_hit_normal_unit_and_frontface (s : Sphere) (ray : Ray) (t_min : ℝ)
    (t_max : EReal) (rec : HitRecord) (ha : dot ray.dir ray.dir ≠ 0)
    (hrad : s.radius ≠ 0) (h : Sphere.hit s ray t_min t_max = some rec) :
    rec.normal.length = 1 ∧ rec.normal = (rec.p - s.center) / s.radius ∧
      (rec.front_face = true ↔ dot ray.dir rec.normal < 0) := by
  simp only [Sphere.hit, HitRecord.with_face_normal, ite_self] at h
  split_ifs at h with hd h1 h2
  · rw [Option.some.injEq] at h
    subst h
    have hdisc : (0 : ℝ) ≤
        dot (ray.orig - s.center) ray.dir * dot (ray.orig - s.center) ray.dir -
          dot ray.dir ray.dir *
            (dot (ray.orig - s.center) (ray.orig - s.center) - s.radius * s.radius) :=
      not_lt.mp hd
    refine ⟨?_, rfl, by simp⟩
    simp only [Ray.at]
    exact normal_length_one ray.orig ray.dir s.center s.radius _ hrad
      (root_quadratic _ _ _ _ _ ha (Real.mul_self_sqrt hdisc) (Or.inr rfl))
  · rw [Option.some.injEq] at h
    subst h
    have hdisc : (0 : ℝ) ≤
        dot (ray.orig - s.center) ray.dir * dot (ray.orig - s.center) ray.dir -
          dot ray.dir ray.dir *
            (dot (ray.orig - s.center) (ray.orig - s.center) - s.radius * s.radius) :=
      not_lt.mp hd
    refine ⟨?_, rfl, by simp⟩
    simp only [Ray.at]
    exact normal_length_one ray.orig ray.dir s.center s.radius _ hrad
      (root_quadratic _ _ _ _ _ ha (Real.mul_self_sqrt hdisc) (Or.inl rfl))

/-- Witness for C1 (amended) at the spec's front-face test instance. -/
theorem sphere_hit_normal_unit_and_frontface_witness :
    dot exRayOutside.dir exRayOutside.dir ≠ 0 ∧ exSphere.radius ≠ 0 ∧
    Sphere.hit exSphere exRayOutside 0.001 ⊤ =
      some ⟨⟨⟨0, 0, -1⟩, ⟨0, 0, -1⟩, 4, true⟩, matNone⟩ ∧
    ((⟨⟨⟨0, 0, -1⟩, ⟨0, 0, -1⟩, 4, true⟩, matNone⟩ : HitRecord).normal.length = 1 ∧
      (⟨⟨⟨0, 0, -1⟩, ⟨0, 0, -1⟩, 4, true⟩, matNone⟩ : HitRecord).normal =
        ((⟨⟨⟨0, 0, -1⟩, ⟨0, 0, -1⟩, 4, true⟩, matNone⟩ : HitRecord).p - exSphere.center) /
          exSphere.radius ∧
      ((⟨⟨⟨0, 0, -1⟩, ⟨0, 0, -1⟩, 4, true⟩, matNone⟩ : HitRecord).front_face = true ↔
        dot exRayOutside.dir
          (⟨⟨⟨0, 0, -1⟩, ⟨0, 0, -1⟩, 4, true⟩, matNone⟩ : HitRecord).normal < 0)) := by
  have ha : dot exRayOutside.dir exRayOutside.dir ≠ 0 := by norm_num [exRayOutside, dot]
  have hrad : exSphere.radius ≠ 0 := by norm_num [exSphere]
  exact ⟨ha, hrad, sphere_hit_front_example,
    sphere_hit_normal_unit_and_frontface exSphere exRayOutside 0.001 ⊤ _ ha hrad
      sphere_hit_front_example⟩

/-- Claim C4, counterexample: on the empty scene, `min_by` over the empty
member iterator yields Rust `None` and the final `.unwrap()` panics
(outer `none` in the model), so `HitList::hit` does not return normally
for every scene. -/
theorem hitlist_hit_empty_panics :
    HitList.hit ⟨[]⟩ exRayInside 0.001 ⊤ = none := rfl

/-- Claim C4 (amended): `HitList::hit` returns normally — some hit record
or no result — for every ray and interval on every NON-EMPTY scene; on the
empty scene the `unwrap` of `min_by`'s `None` panics. -/
theorem hitlist_hit_total_nonempty (hl : HitList) (ray : Ray) (t_min : ℝ)
    (t_max : EReal) (hne : hl.objects ≠ []) :
    (hl.hit ray t_min t_max).isSome := by
  obtain ⟨o, os, ho⟩ := List.exists_cons_of_ne_nil hne
  simp [HitList.hit, ho]

/-- Witness for C4 (amended) on a concrete one-member scene. -/
theorem hitlist_hit_total_nonempty_witness :
    ([worldMiss] : List HitFn) ≠ [] ∧
      (HitList.hit ⟨[worldMiss]⟩ exRayInside 0.001 ⊤).isSome := by
  have hne : ([worldMiss] : List HitFn) ≠ [] := by simp
  exact ⟨hne, hitlist_hit_total_nonempty ⟨[worldMiss]⟩ exRayInside 0.001 ⊤ hne⟩

/-- `hitMinStep acc b` is one of its two arguments. -/
theorem hitMinStep_eq_or (acc b : Option HitRecord) :
    hitMinStep acc b = acc ∨ hitMinStep acc b = b := by
  cases b with
  | none => cases acc <;> exact Or.inl rfl
  | some rb =>
    cases acc with
    | none => exact Or.inr rfl
    | some racc =>
      by_cases hlt : rb.t < racc.t
      · exact Or.inr (by simp [hitMinStep, hlt])
      · exact Or.inl (by simp [hitMinStep, hlt])

/-- If the accumulator is a hit, `hitMinStep` yields a hit with `t` no
larger than the accumulator's. -/
theorem hitMinStep_le_left (acc b : Option HitRecord) (rec' : HitRecord)
    (h : acc = some rec') :
    ∃ rec, hitMinStep acc b = some rec ∧ rec.t ≤ rec'.t := by
  subst h
  cases b with
  | none => exact ⟨rec', rfl, le_refl _⟩
  | some rb =>
    by_cases hlt : rb.t < rec'.t
    · exact ⟨rb, by simp [hitMinStep, hlt], le_of_lt hlt⟩
    · exact ⟨rec', by simp [hitMinStep, hlt], le_refl _⟩

/-- If the new element is a hit, `hitMinStep` yields a hit with `t` no
larger than the new element's. -/
theorem hitMinStep_le_right (acc b : Option HitRecord) (rec' : HitRecord)
    (h : b = some rec') :
    ∃ rec, hitMinStep acc b = some rec ∧ rec.t ≤ rec'.t := by
  subst h
  cases acc with
  | none => exact ⟨rec', rfl, le_refl _⟩
  | some ra =>
    by_cases hlt : rec'.t < ra.t
    · exact ⟨rec', by simp [hitMinStep, hlt], le_refl _⟩
    · exact ⟨ra, by simp [hitMinStep, hlt], not_lt.mp hlt⟩

/-- The fold of `hitMinStep` returns one of the folded elements. -/
theorem foldl_hitMinStep_mem (l : List (Option HitRecord)) :
    ∀ h : Option HitRecord, List.foldl hitMinStep h l ∈ h :: l := by
  induction l with
  | nil => intro h; simp
  | cons b t ih =>
    intro h
    rw [List.foldl_cons]
    rcases List.mem_cons.mp (ih (hitMinStep h b)) with hm | hm
    · rcases hitMinStep_eq_or h b with he | he
      · rw [hm, he]; exact List.mem_cons_self _ _
      · rw [hm, he]; exact List.mem_cons_of_mem _ (List.mem_cons_self _ _)
    · exact List.mem_cons_of_mem _ (List.mem_cons_of_mem _ hm)

/-- Whenever some folded element is a hit, the fold of `hitMinStep` is a
hit whose `t` is no larger than that element's. -/
theorem foldl_hitMinStep_min (l : List (Option HitRecord)) :
    ∀ (h x : Option HitRecord), x ∈ h :: l → ∀ rec', x = some rec' →
      ∃ rec, List.foldl hitMinStep h l = some rec ∧ rec.t ≤ rec'.t := by
  induction l with
  | nil =>
    intro h x hx rec' hrec
    rw [List.mem_singleton] at hx
    rw [List.foldl_nil, ← hx]
    exact ⟨rec', hrec, le_refl _⟩
  | cons b t ih =>
    intro h x hx rec' hrec
    rw [List.foldl_cons]
    rcases List.mem_cons.mp hx with hm | hm
    · subst hm
      obtain ⟨rec₁, h1, h1le⟩ := hitMinStep_le_left x b rec' hrec
      obtain ⟨rec₂, h2, h2le⟩ :=
        ih (hitMinStep x b) (hitMinStep x b) (List.mem_cons_self _ _) rec₁ h1
      exact ⟨rec₂, h2, le_trans h2le h1le⟩
    · rcases List.mem_cons.mp hm with hm2 | hm2
      · subst hm2
        obtain ⟨rec₁, h1, h1le⟩ := hitMinStep_le_right h x rec' hrec
        obtain ⟨rec₂, h2, h2le⟩ :=
          ih (hitMinStep h x) (hitMinStep h x) (List.mem_cons_self _ _) rec₁ h1
        exact ⟨rec₂, h2, le_trans h2le h1le⟩
      · exact ih (hitMinStep h b) x (List.mem_cons_of_mem _ hm2) rec' hrec

/-- A member's query result is among the mapped results the fold sees. -/
theorem mem_mapped (o : HitFn) (os : List HitFn) (f : HitFn) (ray : Ray)
    (t_min : ℝ) (t_max : EReal) (hf : f ∈ o :: os) :
    f ray t_min t_max ∈
      (o ray t_min t_max) :: os.map (fun obj => obj ray t_min t_max) := by
  rcases List.mem_cons.mp hf with rfl | hf2
  · exact List.mem_cons_self _ _
  · exact List.mem_cons_of_mem _ (List.mem_map_of_mem _ hf2)

/-- Claim C3: for every non-empty scene, ray, and interval, `HitList::hit`
queries every member with the same `(t_min, t_max)` and returns normally:
either no result when no member hits, or the member hit record with the
smallest `t` among all member hits. -/
theorem hitlist_hit_selects_closest (hl : HitList) (ray : Ray) (t_min : ℝ)
    (t_max : EReal) (hne : hl.objects ≠ []) :
    ∃ res, hl.hit ray t_min t_max = some res ∧
      ((res = none ∧ ∀ f ∈ hl.objects, f ray t_min t_max = none) ∨
        ∃ rec, res = some rec ∧
          (∃ f ∈ hl.objects, f ray t_min t_max = some rec) ∧
          ∀ f ∈ hl.objects, ∀ rec', f ray t_min t_max = some rec' →
            rec.t ≤ rec'.t) := by
  obtain ⟨o, os, ho⟩ := List.exists_cons_of_ne_nil hne
  refine ⟨List.foldl hitMinStep (o ray t_min t_max)
    (os.map fun obj => obj ray t_min t_max), ?_, ?_⟩
  · simp [HitList.hit, ho]
  · cases hcase : List.foldl hitMinStep (o ray t_min t_max)
        (os.map fun obj => obj ray t_min t_max) with
    | none =>
      left
      refine ⟨rfl, ?_⟩
      intro f hf
      cases hres : f ray t_min t_max with
      | none => rfl
      | some rec' =>
        obtain ⟨rec, hr, -⟩ := foldl_hitMinStep_min _ _ _
          (mem_mapped o os f ray t_min t_max (ho ▸ hf)) rec' hres
        rw [hcase] at hr
        exact absurd hr (by simp)
    | some rec =>
      right
      refine ⟨rec, rfl, ?_, ?_⟩
      · have hmem := foldl_hitMinStep_mem
          (os.map fun obj => obj ray t_min t_max) (o ray t_min t_max)
        rw [hcase] at hmem
        rcases List.mem_cons.mp hmem with hm | hm
        · exact ⟨o, by rw [ho]; exact List.mem_cons_self _ _, hm.symm⟩
        · obtain ⟨f, hf, hfe⟩ := List.mem_map.mp hm
          exact ⟨f, by rw [ho]; exact List.mem_cons_of_mem _ hf, hfe⟩
      · intro f hf rec' hres
        obtain ⟨rec₂, hr2, hle⟩ := foldl_hitMinStep_min _ _ _
          (mem_mapped o os f ray t_min t_max (ho ▸ hf)) rec' hres
        rw [hcase, Option.some.injEq] at hr2
        rw [hr2]
        exact hle

/-- Witness for C3 on a concrete two-member scene. -/
theorem hitlist_hit_selects_closest_witness :
    ([worldMiss, worldHit] : List HitFn) ≠ [] ∧
      ∃ res, HitList.hit ⟨[worldMiss, worldHit]⟩ exRayInside 0.001 ⊤ = some res ∧
        ((res = none ∧
            ∀ f ∈ ([worldMiss, worldHit] : List HitFn), f exRayInside 0.001 ⊤ = none) ∨
          ∃ rec, res = some rec ∧
            (∃ f ∈ ([worldMiss, worldHit] : List HitFn),
              f exRayInside 0.001 ⊤ = some rec) ∧
            ∀ f ∈ ([worldMiss, worldHit] : List HitFn), ∀ rec',
              f exRayInside 0.001 ⊤ = some rec' → rec.t ≤ rec'.t) := by
  have hne : ([worldMiss, worldHit] : List HitFn) ≠ [] := by simp
  exact ⟨hne,
    hitlist_hit_selects_closest ⟨[worldMiss, worldHit]⟩ exRayInside 0.001 ⊤ hne⟩

/-- With fuel `depth.toNat = max(depth, 0)`, the fuel-instrumented color
recursion completes and agrees with `Ray.color`: the recursion makes at
most `max(depth, 0)` nested calls. -/
theorem colorFuel_toNat (world : HitFn) :
    ∀ (n : ℕ) (depth : ℤ) (r : Ray), depth.toNat = n →
      Ray.colorFuel world depth.toNat depth r = some (Ray.color world depth r) := by
  intro n
  induction n with
  | zero =>
    intro depth r hn
    have hdep : depth ≤ 0 := by omega
    rw [Ray.colorFuel, Ray.color]
    simp [hdep]
  | succ k ih =>
    intro depth r hn
    have hdep : ¬depth ≤ 0 := by omega
    rw [Ray.colorFuel, Ray.color, if_neg hdep, dif_neg hdep]
    cases hw : world r 0.001 ⊤ with
    | none => rfl
    | some rec =>
      dsimp only
      cases hs : rec.mat_ptr r rec.toHitRecordCore with
      | none => rfl
      | some out =>
        dsimp only
        have hk : (depth - 1).toNat = k := by omega
        rw [hn, ← hk]
        dsimp only
        rw [ih (depth - 1) out.scattered hk]
        rfl

/-- Claim C7: the color recursion passes `depth - 1` to each nested call
(given that the hit and scatter queries return), and it terminates within
`max(depth, 0)` nested recursive calls regardless of scene content
(`colorFuel` with fuel `depth.toNat` completes and agrees with
`Ray.color`). -/
theorem color_terminates_depth_bound (world : HitFn) (depth : ℤ) (r : Ray) :
    Ray.colorFuel world depth.toNat depth r = some (Ray.color world depth r) ∧
      ∀ (rec : HitRecord) (out : ScatterResult), 0 < depth →
        world r 0.001 ⊤ = some rec →
        rec.mat_ptr r rec.toHitRecordCore = some out →
        Ray.color world depth r =
          out.attenuation * Ray.color world (depth - 1) out.scattered := by
  constructor
  · exact colorFuel_toNat world depth.toNat depth r rfl
  · intro rec out hpos hw hs
    rw [Ray.color, dif_neg (by omega)]
    simp only [hw, hs]

/-- Witness for C7 on a concrete scattering world at depth 1. -/
theorem color_terminates_depth_bound_witness :
    (Ray.colorFuel worldHit (1 : ℤ).toNat 1 exRayInside =
        some (Ray.color worldHit 1 exRayInside)) ∧
      (0 : ℤ) < 1 ∧ worldHit exRayInside 0.001 ⊤ = some exHitRecord ∧
      exHitRecord.mat_ptr exRayInside exHitRecord.toHitRecordCore = some exScatter ∧
      Ray.color worldHit 1 exRayInside =
        exScatter.attenuation * Ray.color worldHit 0 exScatter.scattered := by
  refine ⟨(color_terminates_depth_bound worldHit 1 exRayInside).1,
    by norm_num, rfl, rfl, ?_⟩
  exact (color_terminates_depth_bound worldHit 1 exRayInside).2 exHitRecord exScatter
    (by norm_num) rfl rfl
